import Mathlib

/-!
Verification of the gtsdb driver clients (Go, JavaScript, PHP, R) against
their natural-language specification.

Protocol lines are modelled as `List Char` (the drivers operate on byte/char
strings; all protocol text is ASCII).  Machine floats (`float64` in Go,
`Number` in JavaScript) are modelled by `ℚ`: every concrete value appearing
in a theorem below is exactly representable in binary64 and the arithmetic
performed on it by the drivers is exact, so the rational model agrees with
the float semantics at every input a theorem evaluates.
-/

namespace Gtsdb

/-- Characters the drivers' trim operations strip (JavaScript
`String.prototype.trim`, Go `strings.TrimSpace`): ASCII whitespace.  The
protocol text is ASCII, so the Unicode cases of the originals never differ. -/
def isWsChar (c : Char) : Bool :=
  c = ' ' || c = '\t' || c = '\n' || c = '\r'

/-- Trim of a string, as `strings.TrimSpace` / `.trim()` perform it: drop
whitespace from the front, then from the back. -/
def trimChars (s : List Char) : List Char :=
  (((s.dropWhile isWsChar).reverse).dropWhile isWsChar).reverse

/-- Split a string on every occurrence of the character `sep`, as Go
`strings.Split`, JavaScript `String.prototype.split` and PHP `explode` do:
the result always has at least one element, and splitting the empty string
yields `[[]]` (one empty field). -/
def splitOnChar (sep : Char) : List Char → List (List Char)
  | [] => [[]]
  | a :: as =>
    let r := splitOnChar sep as
    if a = sep then [] :: r else (a :: r.headI) :: r.tail

/-- Convenience: the character list of a string literal. -/
def str (s : String) : List Char := s.data

theorem splitOnChar_ne_nil (sep : Char) (s : List Char) :
    splitOnChar sep s ≠ [] := by
  induction s with
  | nil => simp [splitOnChar]
  | cons a as ih =>
    simp only [splitOnChar]
    by_cases ha : a = sep <;> simp [ha]

theorem splitOnChar_of_not_mem (sep : Char) (s : List Char) (h : sep ∉ s) :
    splitOnChar sep s = [s] := by
  induction s with
  | nil => simp [splitOnChar]
  | cons a as ih =>
    simp only [List.mem_cons, not_or] at h
    have hne : ¬ (a = sep) := fun hc => h.1 hc.symm
    simp only [splitOnChar, ih h.2, if_neg hne, List.headI, List.tail]

theorem splitOnChar_append (sep : Char) (xs ys : List Char) (h : sep ∉ xs) :
    splitOnChar sep (xs ++ sep :: ys) = xs :: splitOnChar sep ys := by
  induction xs with
  | nil => simp [splitOnChar]
  | cons a as ih =>
    simp only [List.mem_cons, not_or] at h
    have hne : ¬ (a = sep) := fun hc => h.1 hc.symm
    simp only [List.cons_append, splitOnChar, List.append_eq, ih h.2,
      if_neg hne, List.headI, List.tail]

theorem length_splitOnChar_pos (sep : Char) (s : List Char) :
    1 ≤ (splitOnChar sep s).length := by
  cases h : splitOnChar sep s with
  | nil => exact absurd h (splitOnChar_ne_nil sep s)
  | cons r rs => simp

theorem dropWhile_eq_self_of_head (p : Char → Bool) (l : List Char)
    (h : ∀ c, l.head? = some c → p c = false) : l.dropWhile p = l := by
  cases l with
  | nil => rfl
  | cons a as => simp [List.dropWhile, h a rfl]

theorem trimChars_body_newline (body : List Char)
    (h1 : ∀ c, body.head? = some c → isWsChar c = false)
    (h2 : ∀ c, body.getLast? = some c → isWsChar c = false) :
    trimChars (body ++ ['\n']) = body := by
  cases body with
  | nil => simp [trimChars, List.dropWhile, isWsChar]
  | cons b bs =>
    unfold trimChars
    rw [dropWhile_eq_self_of_head isWsChar ((b :: bs) ++ ['\n'])
      (by intro c hc; simp at hc; exact h1 c (by simp [hc]))]
    have hrev : ((b :: bs) ++ ['\n']).reverse = '\n' :: (b :: bs).reverse := by
      simp
    rw [hrev]
    have hws : isWsChar '\n' = true := by decide
    simp only [List.dropWhile, hws]
    rw [dropWhile_eq_self_of_head isWsChar (b :: bs).reverse
      (by
        intro c hc
        apply h2
        rw [List.head?_reverse] at hc
        exact hc)]
    simp

/-- ASCII decimal digit test ('0'..'9'), as the drivers' number parsers use. -/
def isDigitChar (c : Char) : Bool :=
  48 ≤ c.toNat && c.toNat ≤ 57

/-- The character of one decimal digit. -/
def digitChar (d : Nat) : Char := Char.ofNat (48 + d)

/-- Numeric value of one decimal digit character. -/
def digitVal (c : Char) : Nat := c.toNat - 48

/-- Value of a big-endian string of decimal digit characters. -/
def valDigits (s : List Char) : Nat :=
  s.foldl (fun a c => 10 * a + digitVal c) 0

/-- Fuel-bounded digit extraction (structural recursion so that concrete
instances reduce inside the kernel); `fuel > n` always suffices, since the
quotient shrinks strictly at every step. -/
def natDigitsRevGo (fuel n : Nat) : List Char :=
  match fuel with
  | 0 => []
  | f + 1 =>
    if n < 10 then [digitChar n]
    else digitChar (n % 10) :: natDigitsRevGo f (n / 10)

/-- Decimal digit characters of a natural number, least significant first. -/
def natDigitsRev (n : Nat) : List Char := natDigitsRevGo (n + 1) n

theorem natDigitsRevGo_stable (fuel₁ : Nat) : ∀ fuel₂ n : Nat, n < fuel₁ →
    n < fuel₂ → natDigitsRevGo fuel₁ n = natDigitsRevGo fuel₂ n := by
  induction fuel₁ with
  | zero => omega
  | succ f ih =>
    intro fuel₂ n h1 h2
    cases fuel₂ with
    | zero => omega
    | succ g =>
      simp only [natDigitsRevGo]
      by_cases hn : n < 10
      · simp [hn]
      · simp only [if_neg hn]
        rw [ih g (n / 10) (by omega) (by omega)]

theorem natDigitsRev_unfold (n : Nat) :
    natDigitsRev n =
      if n < 10 then [digitChar n]
      else digitChar (n % 10) :: natDigitsRev (n / 10) := by
  show natDigitsRevGo (n + 1) n = _
  by_cases hn : n < 10
  · simp [natDigitsRevGo, hn]
  · simp only [natDigitsRevGo, if_neg hn]
    rw [natDigitsRevGo_stable n (n / 10 + 1) (n / 10) (by omega) (by omega)]
    rfl

/-- Decimal rendering of a natural number, as `%d` and JavaScript number
printing produce for naturals. -/
def natRepr (n : Nat) : List Char := (natDigitsRev n).reverse

/-- Decimal rendering of an integer (`%d` of Go `fmt`). -/
def intRepr (i : Int) : List Char :=
  if i < 0 then '-' :: natRepr i.natAbs else natRepr i.toNat

/-- Strict decimal natural parser: the whole string must be digits, at least
one. -/
def parseNatStrict (s : List Char) : Option Nat :=
  if s.isEmpty then none
  else if s.all isDigitChar then some (valDigits s) else none

/-- Strict decimal integer parser, as Go `strconv.ParseInt(s, 10, 64)`
behaves on in-range input: optional sign, then digits only.  The int64 range
check of the original is not modelled (no claim exercises it). -/
def parseIntStrict (s : List Char) : Option Int :=
  match s with
  | [] => none
  | c :: rest =>
    if c = '-' then (parseNatStrict rest).map (fun n => -(n : Int))
    else if c = '+' then (parseNatStrict rest).map (fun n => (n : Int))
    else (parseNatStrict s).map (fun n => (n : Int))

theorem digitVal_digitChar (d : Nat) (h : d < 10) :
    digitVal (digitChar d) = d := by
  interval_cases d <;> decide

theorem isDigitChar_digitChar (d : Nat) (h : d < 10) :
    isDigitChar (digitChar d) = true := by
  interval_cases d <;> decide

theorem natDigitsRev_ne_nil (n : Nat) : natDigitsRev n ≠ [] := by
  rw [natDigitsRev_unfold]
  by_cases h : n < 10 <;> simp [h]

theorem mem_natDigitsRev_isDigit (n : Nat) :
    ∀ c ∈ natDigitsRev n, isDigitChar c = true := by
  induction n using Nat.strong_induction_on with
  | _ n ih =>
    rw [natDigitsRev_unfold]
    by_cases h : n < 10
    · simp only [if_pos h, List.mem_singleton]
      rintro c rfl
      exact isDigitChar_digitChar n h
    · simp only [if_neg h, List.mem_cons]
      rintro c (rfl | hc)
      · exact isDigitChar_digitChar _ (Nat.mod_lt _ (by omega))
      · exact ih (n / 10) (Nat.div_lt_self (by omega) (by omega)) c hc

theorem mem_natRepr_isDigit (n : Nat) :
    ∀ c ∈ natRepr n, isDigitChar c = true := by
  intro c hc
  exact mem_natDigitsRev_isDigit n c (List.mem_reverse.mp hc)

theorem valDigits_append_singleton (xs : List Char) (c : Char) :
    valDigits (xs ++ [c]) = 10 * valDigits xs + digitVal c := by
  simp [valDigits, List.foldl_append]

theorem valDigits_natRepr (n : Nat) : valDigits (natRepr n) = n := by
  induction n using Nat.strong_induction_on with
  | _ n ih =>
    unfold natRepr
    rw [natDigitsRev_unfold]
    by_cases h : n < 10
    · simp only [if_pos h, List.reverse_singleton]
      simp [valDigits, digitVal_digitChar n h]
    · simp only [if_neg h, List.reverse_cons]
      rw [valDigits_append_singleton]
      rw [show (natDigitsRev (n / 10)).reverse = natRepr (n / 10) from rfl]
      rw [ih (n / 10) (Nat.div_lt_self (by omega) (by omega))]
      rw [digitVal_digitChar _ (Nat.mod_lt _ (by omega))]
      omega

theorem natRepr_ne_nil (n : Nat) : natRepr n ≠ [] := by
  intro h
  exact natDigitsRev_ne_nil n (by simpa [natRepr] using congrArg List.reverse h)

theorem parseNatStrict_natRepr (n : Nat) :
    parseNatStrict (natRepr n) = some n := by
  unfold parseNatStrict
  rw [if_neg (by simp [natRepr_ne_nil n])]
  rw [if_pos (List.all_eq_true.mpr (mem_natRepr_isDigit n))]
  rw [valDigits_natRepr]

theorem natRepr_head_digit (n : Nat) :
    ∃ c cs, natRepr n = c :: cs ∧ isDigitChar c = true := by
  cases h : natRepr n with
  | nil => exact absurd h (natRepr_ne_nil n)
  | cons c cs =>
    exact ⟨c, cs, rfl, mem_natRepr_isDigit n c (h ▸ List.mem_cons_self c cs)⟩

theorem isDigitChar_facts (c : Char) (h : isDigitChar c = true) :
    c ≠ '-' ∧ c ≠ '+' ∧ c ≠ '.' ∧ c ≠ ',' ∧ c ≠ '|' ∧ isWsChar c = false := by
  simp only [isDigitChar, Bool.and_eq_true, decide_eq_true_eq] at h
  refine ⟨?_, ?_, ?_, ?_, ?_, ?_⟩
  · rintro rfl; revert h; decide
  · rintro rfl; revert h; decide
  · rintro rfl; revert h; decide
  · rintro rfl; revert h; decide
  · rintro rfl; revert h; decide
  · simp only [isWsChar]
    have h1 : c ≠ ' ' := by rintro rfl; revert h; decide
    have h2 : c ≠ '\t' := by rintro rfl; revert h; decide
    have h3 : c ≠ '\n' := by rintro rfl; revert h; decide
    have h4 : c ≠ '\r' := by rintro rfl; revert h; decide
    simp [h1, h2, h3, h4]

theorem parseIntStrict_intRepr (i : Int) :
    parseIntStrict (intRepr i) = some i := by
  unfold intRepr
  by_cases hi : i < 0
  · rw [if_pos hi]
    have hn : -(i.natAbs : Int) = i := by omega
    simp only [parseIntStrict, if_pos rfl, parseNatStrict_natRepr,
      Option.map_some']
    exact congrArg some hn
  · rw [if_neg hi]
    obtain ⟨c, cs, hrep, hdig⟩ := natRepr_head_digit i.toNat
    obtain ⟨hm, hp, -, -, -, -⟩ := isDigitChar_facts c hdig
    have hn : (i.toNat : Int) = i := by omega
    rw [hrep]
    simp only [parseIntStrict, if_neg hm, if_neg hp]
    rw [← hrep, parseNatStrict_natRepr]
    simp [hn]

/-- Strict unsigned decimal parser for the fraction forms Go
`strconv.ParseFloat` accepts on the protocol's values: digits with an
optional single fraction part, the whole string consumed.  Exponent, hex,
infinity and NaN forms of the original are out of the protocol's value
grammar and are not modelled (they would make these parsers return `none`). -/
def parseUnsignedQ (s : List Char) : Option ℚ :=
  match s.dropWhile isDigitChar with
  | [] =>
    if (s.takeWhile isDigitChar).isEmpty then none
    else some ((valDigits (s.takeWhile isDigitChar) : ℚ))
  | c :: frac =>
    if c = '.' then
      if frac.all isDigitChar &&
          (!(s.takeWhile isDigitChar).isEmpty || !frac.isEmpty) then
        some ((valDigits (s.takeWhile isDigitChar) : ℚ)
          + (valDigits frac : ℚ) / (10 : ℚ) ^ frac.length)
      else none
    else none

/-- Go `strconv.ParseFloat(s, 64)` on decimal input: optional sign, then an
unsigned decimal number, the whole string consumed. -/
def goParseFloatQ (s : List Char) : Option ℚ :=
  match s with
  | [] => none
  | c :: rest =>
    if c = '-' then (parseUnsignedQ rest).map Neg.neg
    else if c = '+' then parseUnsignedQ rest
    else parseUnsignedQ (c :: rest)

/-- JavaScript `parseFloat` on an unsigned body: the longest leading
`digits [ '.' digits ]` run is taken and the rest of the string is ignored;
`none` models NaN (no leading digits at all). -/
def jsParseFloatUnsigned (s : List Char) : Option ℚ :=
  match s.dropWhile isDigitChar with
  | '.' :: rest =>
    if (s.takeWhile isDigitChar).isEmpty &&
        (rest.takeWhile isDigitChar).isEmpty then none
    else
      some ((valDigits (s.takeWhile isDigitChar) : ℚ)
        + (valDigits (rest.takeWhile isDigitChar) : ℚ)
          / (10 : ℚ) ^ (rest.takeWhile isDigitChar).length)
  | _ =>
    if (s.takeWhile isDigitChar).isEmpty then none
    else some ((valDigits (s.takeWhile isDigitChar) : ℚ))

/-- JavaScript `parseFloat`: leading whitespace skipped, optional sign, then
the longest numeric prefix; `none` models NaN. -/
def jsParseFloat (s : List Char) : Option ℚ :=
  match s.dropWhile isWsChar with
  | [] => none
  | c :: rest =>
    if c = '-' then (jsParseFloatUnsigned rest).map Neg.neg
    else if c = '+' then jsParseFloatUnsigned rest
    else jsParseFloatUnsigned (c :: rest)

/-- JavaScript `parseInt` (radix 10 inputs): leading whitespace skipped,
optional sign, longest digit prefix; `none` models NaN. -/
def jsParseInt (s : List Char) : Option Int :=
  match s.dropWhile isWsChar with
  | [] => none
  | c :: rest =>
    if c = '-' then
      if (rest.takeWhile isDigitChar).isEmpty then none
      else some (-(valDigits (rest.takeWhile isDigitChar) : Int))
    else if c = '+' then
      if (rest.takeWhile isDigitChar).isEmpty then none
      else some ((valDigits (rest.takeWhile isDigitChar) : Int))
    else
      if ((c :: rest).takeWhile isDigitChar).isEmpty then none
      else some ((valDigits ((c :: rest).takeWhile isDigitChar) : Int))

/-- Round to the nearest integer with ties to even, the rounding Go's
`strconv`/`fmt` fixed-precision decimal conversion applies to the exact
binary value. -/
def roundHalfEven (x : ℚ) : ℤ :=
  if Int.fract x < 1 / 2 then ⌊x⌋
  else if 1 / 2 < Int.fract x then ⌊x⌋ + 1
  else if 2 ∣ ⌊x⌋ then ⌊x⌋ else ⌊x⌋ + 1

/-- The number of hundredths `%.2f` prints for a value: the magnitude
multiplied by 100, correctly rounded to the nearest integer with ties to
even (so 0.125 prints as "0.12", not "0.13"). -/
def centsOf (q : ℚ) : Nat := (roundHalfEven (|q| * 100)).toNat

/-- Two-digit zero-padded decimal rendering of a number below 100. -/
def pad2 (m : Nat) : List Char := [digitChar (m / 10), digitChar (m % 10)]

/-- Go `fmt` `%.2f` of a value: optional minus sign, the integer part, a
point, exactly two fraction digits. -/
def format2f (q : ℚ) : List Char :=
  if q < 0 then
    '-' :: (natRepr (centsOf q / 100) ++ '.' :: pad2 (centsOf q % 100))
  else natRepr (centsOf q / 100) ++ '.' :: pad2 (centsOf q % 100)

/-- The value `%.2f` formatting preserves: the input rounded to a multiple
of 1/100 with ties to even, matching Go's correctly rounded conversion. -/
def round2 (q : ℚ) : ℚ := (if q < 0 then -1 else 1) * (centsOf q : ℚ) / 100

theorem takeWhile_append_of_all (p : Char → Bool) (xs : List Char) (y : Char)
    (ys : List Char) (hx : ∀ x ∈ xs, p x = true) (hy : p y = false) :
    (xs ++ y :: ys).takeWhile p = xs := by
  induction xs with
  | nil => simp [List.takeWhile, hy]
  | cons a as ih =>
    have ha := hx a (List.mem_cons_self a as)
    simp only [List.cons_append, List.takeWhile_cons, ha, if_true]
    rw [ih (fun x hxm => hx x (List.mem_cons_of_mem a hxm))]

theorem dropWhile_append_of_all (p : Char → Bool) (xs : List Char) (y : Char)
    (ys : List Char) (hx : ∀ x ∈ xs, p x = true) (hy : p y = false) :
    (xs ++ y :: ys).dropWhile p = y :: ys := by
  induction xs with
  | nil => simp [List.dropWhile, hy]
  | cons a as ih =>
    have ha := hx a (List.mem_cons_self a as)
    simp only [List.cons_append, List.dropWhile_cons, ha, if_true]
    exact ih (fun x hxm => hx x (List.mem_cons_of_mem a hxm))

theorem valDigits_pad2 (m : Nat) (h : m < 100) : valDigits (pad2 m) = m := by
  simp only [pad2, valDigits, List.foldl_cons, List.foldl_nil]
  rw [digitVal_digitChar (m / 10) (by omega), digitVal_digitChar (m % 10)
    (by omega)]
  omega

theorem pad2_all_digits (m : Nat) (h : m < 100) :
    ∀ c ∈ pad2 m, isDigitChar c = true := by
  simp only [pad2, List.mem_cons, List.mem_singleton]
  rintro c (rfl | rfl | hf)
  · exact isDigitChar_digitChar _ (by omega)
  · exact isDigitChar_digitChar _ (by omega)
  · cases hf

theorem parseUnsignedQ_repr (a b : Nat) (hb : b < 100) :
    parseUnsignedQ (natRepr a ++ '.' :: pad2 b) =
      some ((a : ℚ) + (b : ℚ) / 100) := by
  have hdot : isDigitChar '.' = false := by decide
  have htake := takeWhile_append_of_all isDigitChar (natRepr a) '.' (pad2 b)
    (mem_natRepr_isDigit a) hdot
  have hdrop := dropWhile_append_of_all isDigitChar (natRepr a) '.' (pad2 b)
    (mem_natRepr_isDigit a) hdot
  have h1 : (pad2 b).all isDigitChar = true :=
    List.all_eq_true.mpr (pad2_all_digits b hb)
  unfold parseUnsignedQ
  rw [hdrop, htake]
  simp [h1, pad2, valDigits_natRepr]
  rw [show [digitChar (b / 10), digitChar (b % 10)] = pad2 b from rfl,
    valDigits_pad2 b hb]
  norm_num
  exact ⟨isDigitChar_digitChar _ (by omega), isDigitChar_digitChar _ (by omega)⟩

theorem cents_combine (n : Nat) :
    ((n / 100 : Nat) : ℚ) + ((n % 100 : Nat) : ℚ) / 100 = (n : ℚ) / 100 := by
  have h : ((100 * (n / 100) + n % 100 : Nat) : ℚ) = (n : ℚ) := by
    exact_mod_cast congrArg (Nat.cast (R := ℚ)) (Nat.div_add_mod n 100)
  push_cast at h
  field_simp
  linarith

theorem goParseFloatQ_format2f (q : ℚ) :
    goParseFloatQ (format2f q) = some (round2 q) := by
  have hmain : parseUnsignedQ (natRepr (centsOf q / 100) ++ '.' ::
      pad2 (centsOf q % 100)) = some ((centsOf q : ℚ) / 100) := by
    rw [parseUnsignedQ_repr _ _ (Nat.mod_lt _ (by omega))]
    rw [cents_combine]
  unfold format2f
  by_cases hq : q < 0
  · rw [if_pos hq]
    have hneg : goParseFloatQ ('-' :: (natRepr (centsOf q / 100) ++ '.' ::
        pad2 (centsOf q % 100))) = (parseUnsignedQ (natRepr (centsOf q / 100)
        ++ '.' :: pad2 (centsOf q % 100))).map Neg.neg := by
      simp [goParseFloatQ]
    rw [hneg, hmain]
    simp only [Option.map_some']
    rw [round2, if_pos hq]
    congr 1
    ring
  · rw [if_neg hq]
    obtain ⟨c, cs, hrep, hdig⟩ := natRepr_head_digit (centsOf q / 100)
    obtain ⟨hm, hp, -, -, -, -⟩ := isDigitChar_facts c hdig
    have hpos : goParseFloatQ ((c :: cs) ++ '.' :: pad2 (centsOf q % 100)) =
        parseUnsignedQ ((c :: cs) ++ '.' :: pad2 (centsOf q % 100)) := by
      simp [goParseFloatQ, hm, hp]
    rw [hrep, hpos, ← hrep, hmain]
    rw [round2, if_neg hq]
    congr 1
    ring

theorem round2_eq_self_iff (q : ℚ) : round2 q = q ↔ (q * 100).den = 1 := by
  constructor
  · intro h
    have h100 : q * 100 = (if q < 0 then -1 else 1) * (centsOf q : ℚ) := by
      conv_lhs => rw [← h]
      rw [round2, div_mul_cancel₀ _ (by norm_num : (100 : ℚ) ≠ 0)]
    by_cases hq : q < 0
    · rw [if_pos hq] at h100
      rw [h100, show (-1 : ℚ) * (centsOf q : ℚ) = ((-(centsOf q : ℤ)) : ℚ) by
        push_cast; ring]
      exact Rat.den_intCast _
    · rw [if_neg hq] at h100
      rw [h100, show (1 : ℚ) * (centsOf q : ℚ) = (((centsOf q : ℤ)) : ℚ) by
        push_cast; ring]
      exact Rat.den_intCast _
  · intro hden
    have hm : (((q * 100).num : ℤ) : ℚ) = q * 100 := by
      conv_rhs => rw [← Rat.num_div_den (q * 100)]
      rw [hden]
      norm_num
    set m := (q * 100).num with hmdef
    have hq100 : q = (m : ℚ) / 100 := by
      rw [hm]; ring
    have habs : |q| * 100 = ((m.natAbs : ℤ) : ℚ) := by
      have habs1 : |q| * 100 = |q * 100| := by
        rw [abs_mul]
        norm_num
      rw [habs1, ← hm]
      rw [← Int.cast_abs, Int.abs_eq_natAbs]
    have hcents : centsOf q = m.natAbs := by
      unfold centsOf roundHalfEven
      rw [habs]
      simp only [Int.fract_intCast, Int.floor_intCast]
      rw [if_pos (show (0 : ℚ) < 1 / 2 by norm_num)]
      omega
    rw [round2, hcents]
    by_cases hq : q < 0
    · rw [if_pos hq]
      have hmneg : m ≤ 0 := by
        by_contra hpos
        push_neg at hpos
        have h1 : (0 : ℚ) < (m : ℚ) := by exact_mod_cast hpos
        have h2 : q * 100 < 0 := mul_neg_of_neg_of_pos hq (by norm_num)
        rw [← hm] at h2
        linarith
      have hcast : ((m.natAbs : ℕ) : ℚ) = -(m : ℚ) := by
        push_cast [Int.cast_natAbs]
        rw [abs_of_nonpos (by exact_mod_cast hmneg : (m : ℚ) ≤ 0)]
      rw [hcast, hq100]
      ring
    · rw [if_neg hq]
      have hmnonneg : 0 ≤ m := by
        by_contra hneg
        push_neg at hneg
        have h1 : (m : ℚ) < 0 := by exact_mod_cast hneg
        have h2 : q < 0 := by
          rw [hq100]
          linarith
        exact hq h2
      have hcast : ((m.natAbs : ℕ) : ℚ) = (m : ℚ) := by
        push_cast [Int.cast_natAbs]
        rw [abs_of_nonneg (by exact_mod_cast hmnonneg : (0 : ℚ) ≤ (m : ℚ))]
      rw [hcast, hq100]
      ring

/-- The line `WriteData` sends (Go `fmt.Fprintf(conn, "%s,%d,%.2f\n", key,
timestamp, value)`). -/
def encodeWrite (key : List Char) (timestamp : Int) (value : ℚ) : List Char :=
  key ++ ',' :: intRepr timestamp ++ ',' :: format2f value ++ ['\n']

/-- The line `ReadData` sends (Go `fmt.Fprintf(conn, "%s,%d,%d,%d\n", key,
startTime, endTime, downsampling)`). -/
def encodeQuery (key : List Char) (startTime endTime downsampling : Int) :
    List Char :=
  key ++ ',' :: intRepr startTime ++ ',' :: intRepr endTime ++ ','
    :: intRepr downsampling ++ ['\n']

/-- The control line `Subscribe` sends: `subscribe,{key}\n`. -/
def subscribeLine (key : List Char) : List Char :=
  str "subscribe," ++ key ++ ['\n']

/-- The control line `Unsubscribe` sends: `unsubscribe,{key}\n`. -/
def unsubscribeLine (key : List Char) : List Char :=
  str "unsubscribe," ++ key ++ ['\n']

/-- What `ReadData` does to the raw response line before handing it to the
facade: `strings.Split(strings.TrimSpace(response), "|")` (and identically
`explode("|", trim($response))` in PHP, `.trim().split('|')` in
JavaScript). -/
def readDataSplit (response : List Char) : List (List Char) :=
  splitOnChar '|' (trimChars response)

/-- A decoded data point: a record's key, integer timestamp and value. -/
structure DataPoint where
  key : List Char
  timestamp : Int
  value : ℚ
deriving DecidableEq, Repr

/-- Decoding of one `|`-separated record as the Go facade performs it on
each record: split on `,`, require exactly three fields, parse the
timestamp with `strconv.ParseInt` and the value with `strconv.ParseFloat`;
any failure skips the record. -/
def decodeRecord (rec : List Char) : Option DataPoint :=
  match splitOnChar ',' rec with
  | [k, t, v] =>
    match parseIntStrict t, goParseFloatQ v with
    | some ti, some vq => some ⟨k, ti, vq⟩
    | _, _ => none
  | _ => none

/-- Full decoding of a query-response line: the `ReadData` split followed by
per-record decoding, malformed records skipped (spec section 4.1,
`decodeQueryResponse`). -/
def decodeQueryResponse (line : List Char) : List DataPoint :=
  (readDataSplit line).filterMap decodeRecord

/-- The failure kinds of the facade operations (Go returns them as distinct
`fmt.Errorf` values; the other drivers throw the corresponding messages). -/
inductive TSDBError where
  | noData
  | invalidFormat
  | timestampParse
  | valueParse
  | noValidMeasurements
deriving DecidableEq, Repr

/-- Go `GetLatestMeasurement` applied to the decoded record list (the part
after `ReadData`): fail with the no-data error on an empty list, otherwise
parse the last record, requiring exactly three fields and parseable
timestamp and value.  (`data.getLast?` is `none` exactly when `len(data) ==
0`, the case the Go code checks before indexing `data[len(data)-1]`.)  The
wall-clock window computation and the network call are outside the model;
the sensor id only enters the query line and error messages. -/
def getLatestMeasurement (data : List (List Char)) : Except TSDBError (ℚ × Int) :=
  match data.getLast? with
  | none => .error .noData
  | some last =>
    match splitOnChar ',' last with
    | [_, t, v] =>
      match parseIntStrict t with
      | none => .error .timestampParse
      | some ti =>
        match goParseFloatQ v with
        | none => .error .valueParse
        | some vq => .ok (vq, ti)
    | _ => .error .invalidFormat

/-- The value one record contributes to the average in Go
`GetAverageMeasurement`: `none` when the record does not have exactly three
comma-separated fields or its value fails `strconv.ParseFloat` (the loop
`continue`s in both cases). -/
def recValue (rec : List Char) : Option ℚ :=
  match splitOnChar ',' rec with
  | [_, _, v] => goParseFloatQ v
  | _ => none

/-- One iteration of the Go `GetAverageMeasurement` loop: accumulate sum and
count over the records that contribute a value. -/
def avgStep (acc : ℚ × Nat) (rec : List Char) : ℚ × Nat :=
  match recValue rec with
  | some v => (acc.1 + v, acc.2 + 1)
  | none => acc

/-- Go `GetAverageMeasurement` applied to the decoded record list: no-data
error on an empty list, then the filtering loop, the distinct
no-valid-measurements error when the count stays 0, else `sum / count`. -/
def getAverageMeasurement (data : List (List Char)) : Except TSDBError ℚ :=
  if data.isEmpty then .error .noData
  else
    if (data.foldl avgStep ((0 : ℚ), (0 : Nat))).2 = 0 then
      .error .noValidMeasurements
    else
      .ok ((data.foldl avgStep ((0 : ℚ), (0 : Nat))).1
        / ((data.foldl avgStep ((0 : ℚ), (0 : Nat))).2 : ℚ))

/-- The values of the valid records of a decoded response, in order. -/
def validValues (data : List (List Char)) : List ℚ :=
  data.filterMap recValue

/-- The downsampling value `GetMeasurementHistory` computes: Go clamps
`int(interval.Seconds())` below at 1 (`if downsamplingSeconds < 1 {
downsamplingSeconds = 1 }`); PHP and R write `max(1, intervalSeconds)`. -/
def goHistoryDownsampling (intervalSeconds : Int) : Int :=
  if intervalSeconds < 1 then 1 else intervalSeconds

/-- The query line `GetMeasurementHistory` sends. -/
def historyQueryLine (key : List Char) (startTime endTime intervalSeconds : Int) :
    List Char :=
  encodeQuery key startTime endTime (goHistoryDownsampling intervalSeconds)

/-- The argument object the JavaScript subscription callback receives for
one push line: `message.split(',')` destructured into `(key, timestamp,
value)`, then `parseInt`/`parseFloat` applied with no error check.  `none`
in a field models JavaScript `undefined` (a missing field) or `NaN`/Invalid
Date (an unparseable one). -/
structure PushPoint where
  key : Option (List Char)
  timestamp : Option Int
  value : Option ℚ
deriving DecidableEq, Repr

/-- Decoding of one push line by the JavaScript `onSubscriptionData` handler
body. -/
def decodePushLine (msg : List Char) : PushPoint :=
  { key := (splitOnChar ',' msg)[0]?,
    timestamp := ((splitOnChar ',' msg)[1]?).bind jsParseInt,
    value := ((splitOnChar ',' msg)[2]?).bind jsParseFloat }

/-- What one inbound chunk produces on the subscription-callback path:
`data.toString().trim().split('\n')`, each line decoded and passed to the
callback — one callback invocation per element, in order. -/
def onSubscriptionDecode (chunk : List Char) : List PushPoint :=
  (splitOnChar '\n' (trimChars chunk)).map decodePushLine

/-- The two kinds of handler the JavaScript client registers on the socket's
data event: `readData` registers the query waiter with `socket.once`, and
`onSubscriptionData` registers the subscription handler with `socket.on`. -/
inductive DataHandler where
  | queryWaiter
  | subHandler
deriving DecidableEq, Repr

/-- One registered data listener: its handler and whether it was registered
with `once` (removed after one event). -/
structure EmitterEntry where
  handler : DataHandler
  once : Bool
deriving DecidableEq, Repr

/-- What a data event delivers to one listener: the query waiter resolves
the pending `readData` promise with `data.toString().trim().split('|')`;
the subscription handler decodes the chunk line by line and invokes the
callback. -/
inductive Delivery where
  | toQueryCaller (records : List (List Char))
  | toSubscription (points : List PushPoint)
deriving DecidableEq, Repr

/-- The effect of delivering one chunk to one handler. -/
def runHandler (chunk : List Char) : DataHandler → Delivery
  | .queryWaiter => .toQueryCaller (readDataSplit chunk)
  | .subHandler => .toSubscription (onSubscriptionDecode chunk)

/-- Node's event-emitter semantics for one socket data event: every
registered listener is invoked with the same chunk, in registration order,
and listeners registered with `once` are then removed.  Returns the
deliveries and the remaining listener list. -/
def emitData (chunk : List Char) (listeners : List EmitterEntry) :
    List Delivery × List EmitterEntry :=
  (listeners.map (fun e => runHandler chunk e.handler),
    listeners.filter (fun e => !e.once))

/-- The JavaScript client's own fields (`host`, `port`, `connected`); the
socket object is the external transport. -/
structure JsClientState where
  host : List Char
  port : Int
  connected : Bool
deriving DecidableEq, Repr

/-- The JavaScript driver's own part of `close()`: after `socket.end(cb)`
(the transport's shutdown, modelled separately for the Go-style drivers by
`netConnClose`) the callback sets `connected = false` and resolves; this
promise has no reject path.  This definition covers only the JS client-state
update, not the transport's own close outcome. -/
def close (st : JsClientState) : JsClientState :=
  { st with connected := false }

/-- The outcome of closing a connection in the Go driver: `Close` returns
whatever error `c.conn.Close()` produces, `ok` standing for `nil`. -/
inductive CloseOutcome where
  | ok
  | errClosed
deriving DecidableEq, Repr

/-- The transport connection state the Go driver's `Close` delegates to. -/
structure GoConnState where
  closed : Bool
deriving DecidableEq, Repr

/-- `net.Conn.Close` semantics (and likewise PHP `socket_close` and R
`close`): the first close succeeds and marks the connection closed; closing
an already-closed connection returns the already-closed error ("use of
closed network connection").  The connection is closed afterwards either
way. -/
def netConnClose (c : GoConnState) : CloseOutcome × GoConnState :=
  if c.closed then (.errClosed, c) else (.ok, { closed := true })

/-- Go `TSDBClient.Close()`: `return c.conn.Close()` — a bare delegation
that forwards the transport's outcome unchanged. -/
def goClose (c : GoConnState) : CloseOutcome × GoConnState := netConnClose c

/-- A client together with the trace of protocol lines it has written, the
only effect `subscribe`/`unsubscribe` have. -/
structure ClientTrace where
  client : JsClientState
  sent : List (List Char)
deriving DecidableEq, Repr

/-- `subscribe(key)`: writes `subscribe,{key}\n` and resolves; no client
field is read or written (the same in the Go, PHP and R drivers). -/
def subscribe (s : ClientTrace) (key : List Char) : ClientTrace :=
  { s with sent := s.sent ++ [subscribeLine key] }

/-- `unsubscribe(key)`: writes `unsubscribe,{key}\n` and resolves; no client
field is read or written. -/
def unsubscribe (s : ClientTrace) (key : List Char) : ClientTrace :=
  { s with sent := s.sent ++ [unsubscribeLine key] }

theorem foldl_avgStep (data : List (List Char)) (s : ℚ) (c : Nat) :
    data.foldl avgStep (s, c) =
      (s + (validValues data).sum, c + (validValues data).length) := by
  induction data generalizing s c with
  | nil => simp [validValues]
  | cons rec rest ih =>
    simp only [List.foldl_cons, validValues, List.filterMap_cons]
    cases hrec : recValue rec with
    | none =>
      simp only [avgStep, hrec]
      exact ih s c
    | some v =>
      simp only [avgStep, hrec, List.sum_cons, List.length_cons]
      rw [ih (s + v) (c + 1)]
      rw [Prod.mk.injEq]
      constructor
      · show s + v + (validValues rest).sum = s + (v + (validValues rest).sum)
        ring
      · show c + 1 + (validValues rest).length
          = c + ((validValues rest).length + 1)
        omega

theorem mem_intRepr (i : Int) :
    ∀ c ∈ intRepr i, c = '-' ∨ isDigitChar c = true := by
  intro c hc
  unfold intRepr at hc
  by_cases hi : i < 0
  · rw [if_pos hi] at hc
    rcases List.mem_cons.mp hc with rfl | hm
    · exact Or.inl rfl
    · exact Or.inr (mem_natRepr_isDigit _ c hm)
  · rw [if_neg hi] at hc
    exact Or.inr (mem_natRepr_isDigit _ c hc)

theorem mem_pad2 (m : Nat) (h : m < 100) :
    ∀ c ∈ pad2 m, isDigitChar c = true :=
  pad2_all_digits m h

theorem mem_format2f (q : ℚ) :
    ∀ c ∈ format2f q, c = '-' ∨ c = '.' ∨ isDigitChar c = true := by
  intro c hc
  unfold format2f at hc
  have hbody : c ∈ natRepr (centsOf q / 100) ++ '.' :: pad2 (centsOf q % 100) →
      c = '-' ∨ c = '.' ∨ isDigitChar c = true := by
    intro hm
    rcases List.mem_append.mp hm with h1 | h2
    · exact Or.inr (Or.inr (mem_natRepr_isDigit _ c h1))
    · rcases List.mem_cons.mp h2 with rfl | h3
      · exact Or.inr (Or.inl rfl)
      · exact Or.inr (Or.inr (mem_pad2 _ (Nat.mod_lt _ (by omega)) c h3))
  by_cases hq : q < 0
  · rw [if_pos hq] at hc
    rcases List.mem_cons.mp hc with rfl | hm
    · exact Or.inl rfl
    · exact hbody hm
  · rw [if_neg hq] at hc
    exact hbody hc

theorem format2f_getLast (q : ℚ) :
    (format2f q).getLast? = some (digitChar (centsOf q % 100 % 10)) := by
  have hpad : (pad2 (centsOf q % 100)).getLast? =
      some (digitChar (centsOf q % 100 % 10)) := rfl
  unfold format2f
  by_cases hq : q < 0
  · rw [if_pos hq]
    rw [show ('-' :: (natRepr (centsOf q / 100) ++ '.' ::
        pad2 (centsOf q % 100))) = ('-' :: natRepr (centsOf q / 100)) ++ '.' ::
        pad2 (centsOf q % 100) by simp]
    rw [List.getLast?_append_cons]
    exact hpad
  · rw [if_neg hq, List.getLast?_append_cons]
    exact hpad

theorem format2f_ne_nil (q : ℚ) : format2f q ≠ [] := by
  unfold format2f
  by_cases hq : q < 0
  · simp [hq]
  · rw [if_neg hq]
    simp [natRepr_ne_nil]

/-- Evaluation rule for `centsOf` away from a tie: when the scaled
magnitude lies in `[n, n + 1/2)` the rounded value is `n`. -/
theorem centsOf_eq_floor (q : ℚ) (n : Nat) (h1 : (n : ℚ) ≤ |q| * 100)
    (h2 : |q| * 100 < (n : ℚ) + 1 / 2) : centsOf q = n := by
  have hfl : ⌊|q| * 100⌋ = (n : ℤ) := by
    rw [Int.floor_eq_iff]
    refine ⟨by exact_mod_cast h1, ?_⟩
    push_cast
    linarith
  have hfr : Int.fract (|q| * 100) = |q| * 100 - (n : ℚ) := by
    unfold Int.fract
    rw [hfl]
    norm_num
  unfold centsOf roundHalfEven
  rw [if_pos (show Int.fract (|q| * 100) < 1 / 2 by rw [hfr]; linarith), hfl]
  omega

/-- Evaluation rule for `centsOf` at a tie with an even lower neighbour:
when the scaled magnitude is exactly `n + 1/2` and `n` is even, ties-to-even
rounds down to `n` (as Go prints "0.12" for 0.125). -/
theorem centsOf_eq_tie_even (q : ℚ) (n : Nat)
    (heq : |q| * 100 = (n : ℚ) + 1 / 2) (heven : (2 : ℤ) ∣ (n : ℤ)) :
    centsOf q = n := by
  have hfl : ⌊|q| * 100⌋ = (n : ℤ) := by
    rw [heq, Int.floor_eq_iff]
    constructor
    · push_cast
      linarith
    · push_cast
      linarith
  have hfr : Int.fract (|q| * 100) = 1 / 2 := by
    unfold Int.fract
    rw [hfl, heq]
    push_cast
    ring
  unfold centsOf roundHalfEven
  rw [if_neg (show ¬ Int.fract (|q| * 100) < 1 / 2 by rw [hfr]; norm_num),
    if_neg (show ¬ (1 / 2 : ℚ) < Int.fract (|q| * 100) by rw [hfr]; norm_num),
    if_pos (show (2 : ℤ) ∣ ⌊|q| * 100⌋ by rw [hfl]; exact heven), hfl]
  omega

/-- Each field string of a split-three line reassembles: splitting
`A ++ sep :: (B ++ sep :: C)` yields `[A, B, C]` when no segment contains
the separator. -/
theorem splitOnChar_three (sep : Char) (A B C : List Char) (hA : sep ∉ A)
    (hB : sep ∉ B) (hC : sep ∉ C) :
    splitOnChar sep (A ++ sep :: (B ++ sep :: C)) = [A, B, C] := by
  rw [splitOnChar_append sep A _ hA, splitOnChar_append sep B _ hB,
    splitOnChar_of_not_mem sep _ hC]

/-- The round trip at the heart of claim C2, in its general form: encoding a
write line with the Go driver and decoding it as a query response yields one
record whose key and timestamp are intact and whose value is the `%.2f`
rounding of the original. -/
theorem decodeQueryResponse_encodeWrite (key : List Char) (ts : Int) (q : ℚ)
    (hkey : ∀ c ∈ key, c ≠ ',' ∧ c ≠ '|' ∧ c ≠ '\n')
    (hhead : ∀ c, key.head? = some c → isWsChar c = false) :
    decodeQueryResponse (encodeWrite key ts q) =
      [⟨key, ts, round2 q⟩] := by
  have henc : encodeWrite key ts q =
      (key ++ ',' :: (intRepr ts ++ ',' :: format2f q)) ++ ['\n'] := by
    simp [encodeWrite]
  have hbody_head : ∀ c, (key ++ ',' :: (intRepr ts ++ ','
      :: format2f q)).head? = some c → isWsChar c = false := by
    intro c hc
    cases key with
    | nil =>
      simp at hc
      subst hc
      decide
    | cons k ks =>
      simp at hc
      exact hhead c (by simp [hc])
  have hbody_last : ∀ c, (key ++ ',' :: (intRepr ts ++ ','
      :: format2f q)).getLast? = some c → isWsChar c = false := by
    intro c hc
    rw [List.getLast?_append_cons] at hc
    rw [show (',' :: (intRepr ts ++ ',' :: format2f q))
        = (',' :: intRepr ts) ++ ',' :: format2f q from rfl] at hc
    rw [List.getLast?_append_cons] at hc
    rw [show (',' :: format2f q) = [','] ++ format2f q from rfl] at hc
    rw [List.getLast?_append_of_ne_nil _ (format2f_ne_nil q)] at hc
    rw [format2f_getLast q] at hc
    have hd : isDigitChar (digitChar (centsOf q % 100 % 10)) = true :=
      isDigitChar_digitChar _ (by omega)
    obtain ⟨-, -, -, -, -, hws⟩ := isDigitChar_facts _ hd
    rw [Option.some_inj] at hc
    rw [← hc]
    exact hws
  have htrim : trimChars (encodeWrite key ts q) =
      key ++ ',' :: (intRepr ts ++ ',' :: format2f q) := by
    rw [henc]
    exact trimChars_body_newline _ hbody_head hbody_last
  have hpipe : '|' ∉ key ++ ',' :: (intRepr ts ++ ',' :: format2f q) := by
    intro hmem
    rcases List.mem_append.mp hmem with hk | hrest
    · exact (hkey _ hk).2.1 rfl
    rcases List.mem_cons.mp hrest with h1 | h2
    · exact absurd h1 (by decide)
    rcases List.mem_append.mp h2 with hA | h3
    · rcases mem_intRepr ts _ hA with h | h <;> exact absurd h (by decide)
    rcases List.mem_cons.mp h3 with h4 | hF
    · exact absurd h4 (by decide)
    · rcases mem_format2f q _ hF with h | h | h <;> exact absurd h (by decide)
  have hsplit : readDataSplit (encodeWrite key ts q) =
      [key ++ ',' :: (intRepr ts ++ ',' :: format2f q)] := by
    rw [readDataSplit, htrim]
    exact splitOnChar_of_not_mem _ _ hpipe
  have hkeyc : ',' ∉ key := fun h => (hkey _ h).1 rfl
  have hAc : ',' ∉ intRepr ts := by
    intro h
    rcases mem_intRepr ts _ h with h2 | h2 <;> exact absurd h2 (by decide)
  have hFc : ',' ∉ format2f q := by
    intro h
    rcases mem_format2f q _ h with h2 | h2 | h2 <;> exact absurd h2 (by decide)
  have hdec : decodeRecord (key ++ ',' :: (intRepr ts ++ ',' :: format2f q))
      = some ⟨key, ts, round2 q⟩ := by
    unfold decodeRecord
    rw [splitOnChar_three ',' key (intRepr ts) (format2f q) hkeyc hAc hFc]
    simp [parseIntStrict_intRepr, goParseFloatQ_format2f]
  unfold decodeQueryResponse
  rw [hsplit]
  simp [List.filterMap_cons, hdec]

/-- Closed form of the Go average loop: empty input gives the no-data error,
no surviving record the no-valid-measurements error, otherwise the mean of
the surviving values. -/
theorem getAverageMeasurement_eq (data : List (List Char)) :
    getAverageMeasurement data =
      if data.isEmpty then .error .noData
      else if (validValues data).length = 0 then .error .noValidMeasurements
      else .ok ((validValues data).sum / ((validValues data).length : ℚ)) := by
  unfold getAverageMeasurement
  rw [foldl_avgStep data 0 0]
  simp

theorem getLatestMeasurement_ne_noData (data : List (List Char))
    (h : data ≠ []) :
    getLatestMeasurement data ≠ Except.error TSDBError.noData := by
  unfold getLatestMeasurement
  cases hl : data.getLast? with
  | none =>
    rw [List.getLast?_eq_none_iff] at hl
    exact absurd hl h
  | some last =>
    match hsp : splitOnChar ',' last with
    | [] => simp [hsp]
    | [k] => simp [hsp]
    | [k, t] => simp [hsp]
    | [k, t, v] =>
      cases hpt : parseIntStrict t with
      | none => simp [hsp, hpt]
      | some ti =>
        cases hpv : goParseFloatQ v with
        | none => simp [hsp, hpt, hpv]
        | some vq => simp [hsp, hpt, hpv]
    | k :: t :: v :: w :: rest => simp [hsp]

theorem getAverageMeasurement_ne_noData (data : List (List Char))
    (h : data ≠ []) :
    getAverageMeasurement data ≠ Except.error TSDBError.noData := by
  rw [getAverageMeasurement_eq data]
  rw [if_neg (by simpa using h)]
  by_cases hv : (validValues data).length = 0
  · simp [hv]
  · simp [hv]

theorem round2_one_thirtysecond : round2 (1 / 32 : ℚ) = 3 / 100 := by
  have hc : centsOf (1 / 32 : ℚ) = 3 := by
    apply centsOf_eq_floor
    · rw [abs_of_pos (by norm_num)]
      norm_num
    · rw [abs_of_pos (by norm_num)]
      norm_num
  rw [round2, hc, if_neg (by norm_num)]
  norm_num

theorem round2_one_eighth : round2 (1 / 8 : ℚ) = 3 / 25 := by
  have hc : centsOf (1 / 8 : ℚ) = 12 := by
    apply centsOf_eq_tie_even
    · rw [abs_of_pos (by norm_num)]
      norm_num
    · norm_num
  rw [round2, hc, if_neg (by norm_num)]
  norm_num

/-- C1 (counterexample): a chunk arriving while a query is in flight IS also
delivered to the registered subscription callback, contradicting the claim's
"never also delivered".  With the subscription handler registered (by
`onSubscriptionData`, persistent) and a query waiter registered (by
`readData`, once), one data event for the chunk `"k,5,7\n"` invokes both:
the subscription callback receives the decoded point and the waiting caller
receives the split response, and only then is the wait cleared. -/
theorem c1_counterexample :
    (emitData (str "k,5,7\n") [⟨.subHandler, false⟩, ⟨.queryWaiter, true⟩]).1
        = [.toSubscription [⟨some (str "k"), some 5, some ((7 : ℕ) : ℚ)⟩],
            .toQueryCaller [str "k,5,7"]]
      ∧ Delivery.toSubscription [⟨some (str "k"), some 5, some ((7 : ℕ) : ℚ)⟩]
          ∈ (emitData (str "k,5,7\n")
              [⟨.subHandler, false⟩, ⟨.queryWaiter, true⟩]).1 := by
  constructor
  · decide
  · decide

/-- C1 (amended): every inbound chunk is delivered to every registered data
listener.  If a query waiter is registered (a query is in flight) it
receives the chunk's split response and the wait is then cleared; but if the
subscription handler is also registered, it too receives the chunk, decoded
line by line, and stays registered.  Only when every registered listener is
the subscription handler (no query in flight) is delivery exclusively to the
subscription path. -/
theorem c1_routing (chunk : List Char) (es : List EmitterEntry) :
    (EmitterEntry.mk .queryWaiter true ∈ es →
        Delivery.toQueryCaller (readDataSplit chunk) ∈ (emitData chunk es).1
          ∧ EmitterEntry.mk .queryWaiter true ∉ (emitData chunk es).2)
      ∧ (EmitterEntry.mk .subHandler false ∈ es →
        Delivery.toSubscription (onSubscriptionDecode chunk)
            ∈ (emitData chunk es).1
          ∧ EmitterEntry.mk .subHandler false ∈ (emitData chunk es).2)
      ∧ ((∀ e ∈ es, e.handler = .subHandler) →
        ∀ d ∈ (emitData chunk es).1,
          d = Delivery.toSubscription (onSubscriptionDecode chunk)) := by
  refine ⟨fun hq => ⟨?_, ?_⟩, fun hs => ⟨?_, ?_⟩, fun hall d hd => ?_⟩
  · exact List.mem_map_of_mem (fun e => runHandler chunk e.handler) hq
  · intro hmem
    simp only [emitData] at hmem
    rw [List.mem_filter] at hmem
    simp at hmem
  · exact List.mem_map_of_mem (fun e => runHandler chunk e.handler) hs
  · simp only [emitData]
    rw [List.mem_filter]
    exact ⟨hs, rfl⟩
  · rcases List.mem_map.mp hd with ⟨e, he, rfl⟩
    rw [hall e he]
    rfl

/-- C2 (counterexample): the round trip is not exact for every float64
value: the Go driver formats the value with `%.2f`, so writing value 1/32 =
0.03125 (exactly representable in binary64) produces the line
`"k,0,0.03\n"`, which decodes to value 3/100 ≠ 1/32; and at the tie value
1/8 = 0.125 the formatting rounds to even, producing `"0.12"`, which
decodes to 3/25 ≠ 1/8. -/
theorem c2_counterexample :
    (decodeQueryResponse (encodeWrite (str "k") 0 (1 / 32 : ℚ))
          = [⟨str "k", 0, 3 / 100⟩]
        ∧ (3 / 100 : ℚ) ≠ 1 / 32)
      ∧ (decodeQueryResponse (encodeWrite (str "k") 0 (1 / 8 : ℚ))
          = [⟨str "k", 0, 3 / 25⟩]
        ∧ (3 / 25 : ℚ) ≠ 1 / 8) := by
  refine ⟨⟨?_, by norm_num⟩, ?_, by norm_num⟩
  · rw [decodeQueryResponse_encodeWrite (str "k") 0 (1 / 32 : ℚ)
      (by decide) (by decide), round2_one_thirtysecond]
  · rw [decodeQueryResponse_encodeWrite (str "k") 0 (1 / 8 : ℚ)
      (by decide) (by decide), round2_one_eighth]

/-- C2 (amended): for every key containing no ',', '|' or newline and not
starting with whitespace, every integer timestamp and every value,
`decodeQueryResponse (encodeWrite key ts v)` yields exactly one record with
the key and timestamp intact and the value rounded to two decimal places by
the `%.2f` formatting; the value (and so the whole triple) round-trips
exactly precisely when it is an integer multiple of 1/100. -/
theorem c2_roundtrip (key : List Char) (ts : Int) (q : ℚ)
    (hkey : ∀ c ∈ key, c ≠ ',' ∧ c ≠ '|' ∧ c ≠ '\n')
    (hhead : ∀ c, key.head? = some c → isWsChar c = false) :
    decodeQueryResponse (encodeWrite key ts q) = [⟨key, ts, round2 q⟩]
      ∧ (round2 q = q ↔ (q * 100).den = 1) :=
  ⟨decodeQueryResponse_encodeWrite key ts q hkey hhead, round2_eq_self_iff q⟩

/-- C2 (witness): the round trip at the spec's own scenario, key `sensor1`,
timestamp 1700000000, value 25.5 (= 51/2, a multiple of 1/100). -/
theorem c2_roundtrip_witness :
    decodeQueryResponse (encodeWrite (str "sensor1") 1700000000 (51 / 2 : ℚ))
        = [⟨str "sensor1", 1700000000, round2 (51 / 2 : ℚ)⟩]
      ∧ (round2 (51 / 2 : ℚ) = 51 / 2 ↔ ((51 / 2 : ℚ) * 100).den = 1) :=
  c2_roundtrip (str "sensor1") 1700000000 (51 / 2) (by decide) (by decide)

/-- C3: on an empty decoded response set `getLatestMeasurement` fails with
the no-data error and returns no value at all (in particular no default or
zero measurement). -/
theorem c3_empty_noData :
    getLatestMeasurement [] = Except.error TSDBError.noData
      ∧ ∀ r : ℚ × Int, getLatestMeasurement [] ≠ Except.ok r := by
  refine ⟨rfl, fun r h => ?_⟩
  rw [show getLatestMeasurement [] = Except.error TSDBError.noData from rfl]
    at h
  exact Except.noConfusion h

/-- C4: `getAverageMeasurement` computes the arithmetic mean of the values
of the valid records only: whenever at least one record survives the
filtering, the result is the sum of the surviving values divided by their
count; malformed records do not change the result; and on exactly the two
records with values "10" and "20" the result is exactly 15. -/
theorem c4_average_mean :
    (∀ data : List (List Char), validValues data ≠ [] →
        getAverageMeasurement data =
          Except.ok ((validValues data).sum / ((validValues data).length : ℚ)))
      ∧ getAverageMeasurement [str "s,1,10", str "s,2,20"] = Except.ok 15
      ∧ (∀ rec : List Char, ∀ data : List (List Char), recValue rec = none →
          data ≠ [] → getAverageMeasurement (rec :: data)
            = getAverageMeasurement data) := by
  have hmean : ∀ data : List (List Char), validValues data ≠ [] →
      getAverageMeasurement data =
        Except.ok ((validValues data).sum / ((validValues data).length : ℚ)) := by
    intro data hv
    have hd : data ≠ [] := by
      intro h
      subst h
      exact hv rfl
    rw [getAverageMeasurement_eq data, if_neg (by simpa using hd),
      if_neg (by simpa using hv)]
  refine ⟨hmean, ?_, ?_⟩
  · have h10 : recValue (str "s,1,10") = some ((10 : ℕ) : ℚ) := rfl
    have h20 : recValue (str "s,2,20") = some ((20 : ℕ) : ℚ) := rfl
    have hvv : validValues [str "s,1,10", str "s,2,20"]
        = [((10 : ℕ) : ℚ), ((20 : ℕ) : ℚ)] := by
      simp [validValues, List.filterMap_cons, h10, h20]
    rw [hmean _ (by rw [hvv]; simp), hvv]
    norm_num
  · intro rec data hrec hd
    rw [getAverageMeasurement_eq, getAverageMeasurement_eq]
    have hvv : validValues (rec :: data) = validValues data := by
      simp [validValues, List.filterMap_cons, hrec]
    rw [hvv]
    simp [hd]

/-- C5: `getAverageMeasurement` fails with the no-valid-measurements error
exactly when the decoded response set is non-empty but every record was
skipped as malformed; it fails with the (distinct) no-data error exactly
when the set is empty; and a numeric result is returned only outside both
failure cases. -/
theorem c5_error_duality (data : List (List Char)) :
    (getAverageMeasurement data = Except.error TSDBError.noValidMeasurements
        ↔ data ≠ [] ∧ validValues data = [])
      ∧ (getAverageMeasurement data = Except.error TSDBError.noData
        ↔ data = [])
      ∧ (∀ q : ℚ, getAverageMeasurement data = Except.ok q →
        data ≠ [] ∧ validValues data ≠ []) := by
  by_cases hd : data = []
  · subst hd
    simp [getAverageMeasurement_eq, validValues]
  · by_cases hv : validValues data = []
    · rw [getAverageMeasurement_eq data, if_neg (by simpa using hd)]
      simp [hv, hd]
    · rw [getAverageMeasurement_eq data, if_neg (by simpa using hd),
        if_neg (by simpa using hv)]
      simp [hv, hd]

/-- C6: `getMeasurementHistory` sends downsampling `max(1, intervalSeconds)`
in its query line: at `intervalSeconds = 0` it sends 1, and the downsampling
value it sends is never 0. -/
theorem c6_history_downsampling (key : List Char)
    (startTime endTime intervalSeconds : Int) :
    historyQueryLine key startTime endTime intervalSeconds
        = encodeQuery key startTime endTime (max 1 intervalSeconds)
      ∧ goHistoryDownsampling 0 = 1
      ∧ goHistoryDownsampling intervalSeconds ≠ 0 := by
  have hmax : ∀ i : Int, goHistoryDownsampling i = max 1 i := by
    intro i
    unfold goHistoryDownsampling
    split <;> omega
  refine ⟨?_, rfl, ?_⟩
  · rw [historyQueryLine, hmax]
  · rw [hmax]
    omega

/-- C7 (counterexample): a malformed push line is neither skipped nor turned
into an error: the JavaScript handler decodes the single line `"garbage"`
(no comma, so no timestamp or value field) into a DataPoint whose timestamp
and value are NaN/undefined and invokes the subscription callback with it —
the decode has no error outcome at all. -/
theorem c7_counterexample :
    onSubscriptionDecode (str "garbage\n")
      = [⟨some (str "garbage"), none, none⟩] := by
  decide

/-- C7 (amended): every line of an inbound chunk produces exactly one
callback invocation — no line is skipped and no parse error is raised (the
handler has no error path) — and a line with fewer than three
comma-separated fields yields a DataPoint whose value field is NaN
(`none`). -/
theorem c7_push_decode_no_error (chunk : List Char) :
    (onSubscriptionDecode chunk).length
        = (splitOnChar '\n' (trimChars chunk)).length
      ∧ (∀ msg : List Char, (splitOnChar ',' msg).length ≤ 2 →
        (decodePushLine msg).value = none) := by
  constructor
  · simp [onSubscriptionDecode]
  · intro msg hlen
    show ((splitOnChar ',' msg)[2]?).bind jsParseFloat = none
    rw [List.getElem?_eq_none (by omega)]
    rfl

/-- C8 (counterexample): closing an already-closed connection is NOT a
no-op that succeeds without error: the Go driver's `Close` forwards
`conn.Close()`'s outcome, so the second of two closes — and any close of an
already-closed connection — returns the already-closed error instead of
succeeding. -/
theorem c8_close_counterexample :
    (goClose (goClose { closed := false }).2).1 = CloseOutcome.errClosed
      ∧ (goClose { closed := true }).1 = CloseOutcome.errClosed := by
  decide

/-- C8 (amended): after any close the connection is in the closed
(disconnected) state, and closing again leaves that state unchanged; but in
the Go driver (and likewise PHP and R) a repeated close is not error-free —
`Close` returns the transport's already-closed error and succeeds only when
the connection was still open.  Only the JavaScript driver's close has no
error path in client code: it sets `connected := false`, idempotently. -/
theorem c8_close_behaviour (c : GoConnState) (st : JsClientState) :
    ((goClose c).2).closed = true
      ∧ (goClose (goClose c).2).2 = (goClose c).2
      ∧ (c.closed = true → (goClose c).1 = CloseOutcome.errClosed)
      ∧ (c.closed = false → (goClose c).1 = CloseOutcome.ok)
      ∧ close (close st) = close st
      ∧ (close st).connected = false := by
  refine ⟨?_, ?_, fun h1 => ?_, fun h0 => ?_, rfl, rfl⟩
  · unfold goClose netConnClose
    by_cases hc : c.closed <;> simp [hc]
  · unfold goClose netConnClose
    by_cases hc : c.closed <;> simp [hc]
  · unfold goClose netConnClose
    simp [h1]
  · unfold goClose netConnClose
    simp [h0]

/-- C9 (counterexample): the client maintains no local Subscription set:
subscribing to `"sensor1"` (and then unsubscribing) leaves every client
field exactly as it was — the only effect is the two control lines written
to the socket. -/
theorem c9_counterexample :
    (subscribe ⟨⟨str "localhost", 8080, true⟩, []⟩ (str "sensor1")).client
        = (⟨⟨str "localhost", 8080, true⟩, []⟩ : ClientTrace).client
      ∧ (unsubscribe (subscribe ⟨⟨str "localhost", 8080, true⟩, []⟩
            (str "sensor1")) (str "sensor1")).client
        = (⟨⟨str "localhost", 8080, true⟩, []⟩ : ClientTrace).client
      ∧ (unsubscribe (subscribe ⟨⟨str "localhost", 8080, true⟩, []⟩
            (str "sensor1")) (str "sensor1")).sent
        = [subscribeLine (str "sensor1"), unsubscribeLine (str "sensor1")] :=
  ⟨rfl, rfl, rfl⟩

/-- C9 (amended): the client keeps no local subscription state: `subscribe`
and `unsubscribe` only write the corresponding control line and leave the
client state unchanged.  Consequently unsubscribing any key — subscribed
before or not — is error-free (the operations have no error outcome beyond
the write itself) and subscribe-then-unsubscribe leaves the client state
exactly as it started. -/
theorem c9_no_subscription_state (s : ClientTrace) (key : List Char) :
    (subscribe s key).client = s.client
      ∧ (unsubscribe s key).client = s.client
      ∧ (unsubscribe (subscribe s key) key).client = s.client
      ∧ (subscribe s key).sent = s.sent ++ [subscribeLine key]
      ∧ (unsubscribe s key).sent = s.sent ++ [unsubscribeLine key] := by
  refine ⟨rfl, rfl, rfl, rfl, rfl⟩

/-- C10: the query-response decoding used by `ReadData` — trim, then split
on '|' — always returns at least one record (an empty response line yields
the single empty-string record), so the record list handed to the facade
operations is never empty and their empty-response error branches never
fire. -/
theorem c10_readData_nonempty (line : List Char) :
    readDataSplit line ≠ []
      ∧ readDataSplit [] = [[]]
      ∧ getLatestMeasurement (readDataSplit line)
          ≠ Except.error TSDBError.noData
      ∧ getAverageMeasurement (readDataSplit line)
          ≠ Except.error TSDBError.noData := by
  refine ⟨splitOnChar_ne_nil '|' (trimChars line), rfl,
    getLatestMeasurement_ne_noData _ (splitOnChar_ne_nil '|' (trimChars line)),
    getAverageMeasurement_ne_noData _ (splitOnChar_ne_nil '|' (trimChars line))⟩

end Gtsdb
